import Mathlib

/-!
Shallow embedding of the arxiv-markdown batch pipeline
(`src/utils/processor.py` and `src/utils/conversion.py`), together with
theorems about its checkpointing, batching and error-handling behaviour.

The controller's externally visible state is modelled by `PState`:
the durable checkpoint file (a list of appended lines), the in-memory
`processed_ids` snapshot loaded at startup, and the JSONL output log
(`dataset`).  External capabilities (the `gsutil` fetch, the docling
conversion, the spawned worker process) are modelled as oracles supplied
as parameters, so that the controller's own logic is translated verbatim
while the environment stays nondeterministic.  The background downloader
thread and the main loop are composed sequentially; this preserves the
final contents (membership and per-identifier counts) of the checkpoint
file and of the output log, which is what the claims are about.
-/

namespace ArxivMD

/-- An item descriptor as produced by `list_papers`:
the dict `{"arxiv_id": ..., "url": ...}`. -/
structure Paper where
  arxiv_id : String
  url : String
deriving DecidableEq, Repr

/-- A fetched item as built by `download_paper`: the descriptor plus
`local_path` and `temp_dir`. -/
structure FetchedPaper where
  arxiv_id : String
  url : String
  local_path : String
  temp_dir : String
deriving DecidableEq, Repr

/-- One record appended to the JSONL output log:
`{"arxiv_id": ..., "markdown": ...}`. -/
structure OutputRecord where
  arxiv_id : String
  markdown : String
deriving DecidableEq, Repr

/-- A result dictionary put on the result queue by `batch_convert_worker`.
The three shapes that occur in the source are a success dict
(`arxiv_id` + `markdown`), a per-item failure dict (`arxiv_id` + `error`),
and the batch-level marker dict (`batch_error` only, no `arxiv_id`). -/
inductive WorkerResult
  | success (arxiv_id markdown : String)
  | failure (arxiv_id error : String)
  | batchError (error : String)
deriving DecidableEq, Repr

/-- The controller state visible to the claims: the lines of the durable
checkpoint file, the in-memory `processed_ids` set loaded at startup
(membership-based model of the Python `set`), and the records of the
JSONL output log. -/
structure PState where
  processed_ids : List String
  checkpointFile : List String
  dataset : List OutputRecord
deriving DecidableEq, Repr

/-- The characters `str.strip()` removes: Python whitespace. -/
def py_isspace (c : Char) : Bool :=
  c = ' ' || c = '\t' || c = '\n' || c = '\r' || c = '\x0b' || c = '\x0c'

/-- Python `str.strip()`: whitespace removed from both ends. -/
def py_strip (s : String) : String :=
  String.mk ((s.toList.dropWhile py_isspace).reverse.dropWhile py_isspace).reverse

/-- Python `str.split(sep)` for a one-character separator. -/
def py_split (sep : Char) (s : String) : List String :=
  (s.toList.splitOn sep).map String.mk

/-- `load_checkpoint`: read every line of the checkpoint file, strip it,
and take the resulting set as the in-memory `processed_ids`. -/
def load_checkpoint (s : PState) : PState :=
  { s with processed_ids := s.checkpointFile.map py_strip }

/-- `update_checkpoint`: append one line `f"{paper_id}\n"` to the durable
checkpoint file.  Nothing else is touched. -/
def update_checkpoint (s : PState) (paper_id : String) : PState :=
  { s with checkpointFile := s.checkpointFile ++ [paper_id] }

/-! ## The result sink (`_process_batch_results`) -/

/-- One iteration of the result loop in `_process_batch_results`: an
`error` dict is logged and checkpointed; a `markdown` dict is appended to
the JSONL output and then checkpointed, bumping the success counter; a
`batch_error` dict is logged only — the `if "batch_error" not in result`
guard skips the checkpoint update for it. -/
def process_one_result (sn : PState × Nat) (result : WorkerResult) : PState × Nat :=
  match result with
  | .failure arxiv_id _ => (update_checkpoint sn.1 arxiv_id, sn.2)
  | .success arxiv_id markdown =>
      (update_checkpoint
        { sn.1 with dataset := sn.1.dataset ++ [⟨arxiv_id, markdown⟩] } arxiv_id, sn.2 + 1)
  | .batchError _ => sn

/-- `_process_batch_results`: if the worker delivered something that is
not a list (`none` here), every paper of the batch is checkpointed and the
count is 0; otherwise each result dict is handled by `process_one_result`
in order. -/
def process_batch_results (s : PState) (batch_results : Option (List WorkerResult))
    (current_batch_info : List FetchedPaper) : PState × Nat :=
  match batch_results with
  | none => (current_batch_info.foldl (fun t p => update_checkpoint t p.arxiv_id) s, 0)
  | some results => results.foldl process_one_result (s, 0)

/-! ## The isolated batch worker (`batch_convert_worker`) -/

/-- Environment of one worker invocation.  `initOk` tells whether
constructing the `DocumentConverter` succeeds; `fileExists` models
`os.path.exists`; `convert` models the external conversion capability
(docling conversion, figure upload and markdown export), returning either
the rendered markdown or the message of the raised exception. -/
structure ConvEnv where
  initOk : Bool
  initError : String
  fileExists : String → Bool
  convert : FetchedPaper → Except String String

/-- The body of the per-paper loop in `batch_convert_worker`: a missing or
nonexistent `local_path` yields the fixed path error; otherwise the
conversion capability either succeeds (a `markdown` dict) or raises (an
`error` dict with the captured message). -/
def convert_one (env : ConvEnv) (p : FetchedPaper) : WorkerResult :=
  if env.fileExists p.local_path then
    match env.convert p with
    | .ok markdown => .success p.arxiv_id markdown
    | .error e => .failure p.arxiv_id e
  else
    .failure p.arxiv_id "PDF path missing or invalid."

/-- The worker's paper loop, accumulating `results_list` exactly as the
Python `for` loop does. -/
def worker_loop (env : ConvEnv) : List FetchedPaper → List WorkerResult → List WorkerResult
  | [], results_list => results_list
  | p :: rest, results_list => worker_loop env rest (results_list ++ [convert_one env p])

/-- `batch_convert_worker`: when converter construction succeeds the whole
batch is looped over and the `results_list` is delivered; when it raises,
the list gathered so far (empty, since the loop has not started) plus one
`batch_error` marker is delivered instead. -/
def batch_convert_worker (env : ConvEnv) (paper_batch_info : List FetchedPaper) :
    List WorkerResult :=
  if env.initOk then worker_loop env paper_batch_info []
  else [.batchError env.initError]

/-! ## Timeout and termination escalation -/

/-- The spawned worker process as the controller can observe it:
whether it is still alive after `proc.terminate(); proc.join(5)`. -/
structure WorkerProc where
  survivesTerminate : Bool
deriving DecidableEq, Repr

/-- What `_terminate_process` did to the process. -/
structure TermResult where
  terminateRequested : Bool
  graceWaitSeconds : Nat
  forceKilled : Bool
deriving DecidableEq, Repr

/-- `_terminate_process`: always request graceful termination and wait the
5 second grace period; send SIGKILL exactly when the process is still
alive afterwards. -/
def terminate_process (proc : WorkerProc) : TermResult :=
  { terminateRequested := true
    graceWaitSeconds := 5
    forceKilled := proc.survivesTerminate }

/-- `_handle_batch_failure`: for every paper of the batch, append an error
dict to the synthesized result list and checkpoint the identifier. -/
def handle_batch_failure (s : PState) (paper_batch_info : List FetchedPaper)
    (error_message : String) : PState × List WorkerResult :=
  paper_batch_info.foldl
    (fun tl p =>
      (update_checkpoint tl.1 p.arxiv_id, tl.2 ++ [.failure p.arxiv_id error_message]))
    (s, [])

/-- `self.batch_timeout = timeout * batch_size` from `ArxivProcessor.__init__`. -/
def batch_timeout (timeout batch_size : Nat) : Nat := timeout * batch_size

/-- How one executor invocation behaves, seen from the controller's wait on
the result queue: the worker runs to completion and its list arrives in
time (`work`); nothing arrives before the deadline (`hang`); an exception
is raised while managing the process (`mgmt`); or a value that is not a
list arrives (`garbled`). -/
inductive ExecBehavior
  | work (env : ConvEnv)
  | hang (proc : WorkerProc)
  | mgmt (msg : String) (proc : WorkerProc)
  | garbled

/-- Everything `convert_batch_with_process_timeout` produces: the state
after its own checkpoint writes, the value it returns to `run` (`none`
standing for a non-list value), and what termination escalation was
performed (`none` when the process was joined normally). -/
structure ConvertOutcome where
  state : PState
  batch_results : Option (List WorkerResult)
  termination : Option TermResult

/-- `convert_batch_with_process_timeout`: a delivered result is returned
as is; on `queue.Empty` (the batch deadline elapsed) the process is
terminated with escalation and `_handle_batch_failure` synthesizes one
failure per item with the batch-timeout reason; any other exception takes
the same path with the process-management reason. -/
def convert_batch_with_process_timeout (s : PState) (paper_batch_info : List FetchedPaper)
    (timeout : Nat) (beh : ExecBehavior) : ConvertOutcome :=
  match beh with
  | .work env => ⟨s, some (batch_convert_worker env paper_batch_info), none⟩
  | .garbled => ⟨s, none, none⟩
  | .hang proc =>
      let t := terminate_process proc
      let sr := handle_batch_failure s paper_batch_info
        ("Batch timeout after " ++ toString timeout ++ "s")
      ⟨sr.1, some sr.2, some t⟩
  | .mgmt msg proc =>
      let t := terminate_process proc
      let sr := handle_batch_failure s paper_batch_info
        ("Batch process management error: " ++ msg)
      ⟨sr.1, some sr.2, some t⟩

/-! ## Download producer (`download_paper`, `downloader_thread`) -/

/-- How one `gsutil cp` invocation for a paper can go: it succeeds (having
allocated a scratch directory), it hits the 120 second subprocess timeout,
or it fails with a nonzero return code / raised exception. -/
inductive FetchOutcome
  | ok (temp_dir : String)
  | timedOut
  | failed (error : String)

/-- `download_paper`: on a successful copy, return the paper dict extended
with `local_path` (the pdf inside the fresh scratch directory) and
`temp_dir`; on `subprocess.TimeoutExpired` or any other exception, clean
up and return `None`. -/
def download_paper (fetch : Paper → FetchOutcome) (paper : Paper) : Option FetchedPaper :=
  match fetch paper with
  | .ok temp_dir =>
      some ⟨paper.arxiv_id, paper.url, temp_dir ++ "/" ++ paper.arxiv_id ++ ".pdf", temp_dir⟩
  | .timedOut => none
  | .failed _ => none

/-- `downloader_thread`: walk the paper list in order; a successful fetch
is put on the prefetch queue, a failed one is checkpointed immediately;
in the `finally` block a single `None` sentinel is put on the queue.
The returned list is the sequence of queue `put` calls. -/
def downloader_thread (fetch : Paper → FetchOutcome) (papers_metadata : List Paper)
    (s : PState) : PState × List (Option FetchedPaper) :=
  let sp := papers_metadata.foldl
    (fun tl paper =>
      match download_paper fetch paper with
      | some paper_data => (tl.1, tl.2 ++ [some paper_data])
      | none => (update_checkpoint tl.1 paper.arxiv_id, tl.2))
    (s, [])
  (sp.1, sp.2 ++ [none])

/-! ## Prefetch queue (`queue.Queue(maxsize=prefetch_factor * batch_size)`) -/

/-- `self.paper_queue = queue.Queue(maxsize=prefetch_factor * batch_size)`
from `ArxivProcessor.__init__`. -/
def queue_maxsize (batch_size prefetch_factor : Nat) : Nat :=
  prefetch_factor * batch_size

/-- The states a bounded blocking queue of capacity `cap` can reach from
empty: `put` appends only when the queue is not full (a `put` on a full
queue blocks the producer until space frees up, so it never enlarges the
queue beyond `cap`), and `get` removes the oldest element. -/
inductive QueueReachable (cap : Nat) : List (Option FetchedPaper) → Prop
  | empty : QueueReachable cap []
  | put (q : List (Option FetchedPaper)) (x : Option FetchedPaper)
      (hq : QueueReachable cap q) (hlt : q.length < cap) : QueueReachable cap (q ++ [x])
  | get (x : Option FetchedPaper) (q : List (Option FetchedPaper))
      (hq : QueueReachable cap (x :: q)) : QueueReachable cap q

/-! ## Batch aggregation (`_gather_batch`) and the main loop (`run`) -/

/-- One observation the controller can make on `self.paper_queue.get`:
an item arrives, the `None` sentinel arrives, or the 600 second idle
timeout elapses (`queue.Empty`), in which case the code inspects whether
the downloader thread is still alive and whether the queue is empty. -/
inductive QEvent
  | item (p : FetchedPaper)
  | sentinelTok
  | idleTimeout (downloader_alive : Bool) (queue_empty : Bool)
deriving DecidableEq, Repr

/-- The `while len(current_batch_info) < self.batch_size` loop of
`_gather_batch` over the stream of queue observations.  It returns the
gathered batch, the `batch_full` flag (the loop condition became false
without a break), the `done_downloading` flag, and the remaining stream.
An exhausted stream corresponds to the downloader having finished with an
empty queue, which the `queue.Empty` branch treats as end-of-stream. -/
def gather_loop (batch_size : Nat) : List QEvent → List FetchedPaper →
    List FetchedPaper × Bool × Bool × List QEvent
  | [], acc =>
      if batch_size ≤ acc.length then (acc, true, false, []) else (acc, false, true, [])
  | e :: rest, acc =>
      if batch_size ≤ acc.length then (acc, true, false, e :: rest)
      else
        match e with
        | QEvent.item p => gather_loop batch_size rest (acc ++ [p])
        | QEvent.sentinelTok => (acc, false, true, rest)
        | QEvent.idleTimeout alive qempty => (acc, false, !alive && qempty, rest)

/-- `_gather_batch` starts from an empty `current_batch_info`. -/
def gather_batch (batch_size : Nat) (events : List QEvent) :
    List FetchedPaper × Bool × Bool × List QEvent :=
  gather_loop batch_size events []

/-- The per-batch step of `run`: submit the batch to
`convert_batch_with_process_timeout` and feed what comes back to
`_process_batch_results`. -/
def process_batch (s : PState) (batch : List FetchedPaper) (timeout : Nat)
    (beh : ExecBehavior) : PState × Nat :=
  let o := convert_batch_with_process_timeout s batch timeout beh
  process_batch_results o.state o.batch_results batch

/-- The `while not processing_complete` loop of `run`: gather a batch,
process it when nonempty, and stop exactly when a non-full batch
coincides with `done_downloading`.  `behaviors` gives the behaviour of
the `k`-th spawned worker process (`self.worker_process_counter`), and
the fuel bounds the number of iterations (each iteration consumes at
least one queue observation, so `events.length + 1` is always enough).
The returned list is the sequence of batches submitted to the executor. -/
def run_loop (batch_size timeout : Nat) (behaviors : Nat → ExecBehavior) :
    Nat → PState → List QEvent → Nat → PState × List (List FetchedPaper)
  | 0, s, _, _ => (s, [])
  | fuel + 1, s, events, k =>
    let g := gather_batch batch_size events
    if g.1.isEmpty then
      if !g.2.1 && g.2.2.1 then (s, [])
      else run_loop batch_size timeout behaviors fuel s g.2.2.2 k
    else
      let s' := (process_batch s g.1 timeout (behaviors k)).1
      if !g.2.1 && g.2.2.1 then (s', [g.1])
      else
        let r := run_loop batch_size timeout behaviors fuel s' g.2.2.2 (k + 1)
        (r.1, g.1 :: r.2)

/-- Turn the downloader's queue `put`s into the controller's queue
observations: a fetched paper is an item, the final `None` is the
sentinel. -/
def queue_events (pushes : List (Option FetchedPaper)) : List QEvent :=
  pushes.map fun x =>
    match x with
    | some p => QEvent.item p
    | none => QEvent.sentinelTok

/-- `ArxivProcessor.run` for a given offered paper list: start the
downloader, then drain the queue batch by batch with the scaled batch
timeout.  The producer and the controller run concurrently in the source;
composing them sequentially preserves the final checkpoint-file and
output-log contents per identifier, which is what the claims below are
about. -/
def run (batch_size timeout : Nat) (fetch : Paper → FetchOutcome)
    (behaviors : Nat → ExecBehavior) (papers_metadata : List Paper) (s0 : PState) :
    PState × List (List FetchedPaper) :=
  let dl := downloader_thread fetch papers_metadata s0
  let events := queue_events dl.2
  run_loop batch_size (batch_timeout timeout batch_size) behaviors
    (events.length + 1) dl.1 events 0

/-! ## The lister (`list_papers`) -/

/-- Python `filename.replace('.pdf', '')`: every occurrence of `.pdf`
removed, scanning left to right without overlap. -/
def strip_pdf : List Char → List Char
  | '.' :: 'p' :: 'd' :: 'f' :: rest => strip_pdf rest
  | c :: rest => c :: strip_pdf rest
  | [] => []

/-- Python `int(version_str)` restricted to an optional sign followed by
decimal digits (Python additionally tolerates surrounding whitespace and
interior underscores, which cannot occur in a `gsutil` object name). -/
def py_int? (s : String) : Option Int :=
  let digitsVal : List Char → Int := fun ds =>
    ds.foldl (fun n c => n * 10 + ((c.toNat : Int) - ('0'.toNat : Int))) 0
  match s.toList with
  | [] => none
  | '-' :: ds =>
      if !ds.isEmpty && ds.all Char.isDigit then some (-digitsVal ds) else none
  | '+' :: ds =>
      if !ds.isEmpty && ds.all Char.isDigit then some (digitsVal ds) else none
  | ds => if ds.all Char.isDigit then some (digitsVal ds) else none

/-- `url.split('/')[-1].replace('.pdf', '')`: the filename of the listed
object with every occurrence of `.pdf` removed. -/
def extract_paper_id (url : String) : String :=
  String.mk (strip_pdf ((py_split '/' url).getLastD "").toList)

/-- `paper_id.rsplit('v', 1)`: split at the last occurrence of `v`
(defined on ids that contain a `v`). -/
def rsplit_v (paper_id : String) : String × String :=
  let rev := paper_id.toList.reverse
  (String.mk ((rev.dropWhile (· ≠ 'v')).drop 1).reverse,
   String.mk (rev.takeWhile (· ≠ 'v')).reverse)

/-- The version-extraction block of `list_papers`: an id without `v` is
its own base at version 1; otherwise split at the last `v` and parse the
suffix as an integer, falling back to version 1 when `int()` raises. -/
def parse_version (paper_id : String) : String × Int :=
  if paper_id.toList.contains 'v' then
    let bv := rsplit_v paper_id
    match py_int? bv.2 with
    | some version_num => (bv.1, version_num)
    | none => (bv.1, 1)
  else (paper_id, 1)

/-- The value stored in the `paper_versions` dict for one base id. -/
structure VersionInfo where
  version : Int
  full_id : String
  url : String
deriving DecidableEq, Repr

/-- One iteration of the grouping loop of `list_papers` over the
`paper_versions` dict, modelled as an association list in key-insertion
order (Python dicts iterate in insertion order): a new base id is
appended, a known one is overwritten in place when the new version is
strictly higher. -/
def update_versions (acc : List (String × VersionInfo)) (url : String) :
    List (String × VersionInfo) :=
  let paper_id := extract_paper_id url
  let bv := parse_version paper_id
  match List.lookup bv.1 acc with
  | none => acc ++ [(bv.1, ⟨bv.2, paper_id, url⟩)]
  | some info =>
      if bv.2 > info.version then
        acc.map fun e => if e.1 = bv.1 then (bv.1, ⟨bv.2, paper_id, url⟩) else e
      else acc

/-- `list_papers`: `none` models a nonzero `gsutil` return code (empty
result); otherwise the stdout is stripped, split into lines, blank lines
are dropped, papers are grouped to their highest version, and the kept
entries whose full versioned id is not in `processed_ids` are returned in
dict order. -/
def list_papers (gsutil_stdout : Option String) (processed_ids : List String) :
    List Paper :=
  match gsutil_stdout with
  | none => []
  | some out =>
    let paper_urls := (py_split '\n' (py_strip out)).filter fun u => py_strip u ≠ ""
    let paper_versions := paper_urls.foldl update_versions []
    (paper_versions.filter fun e => e.2.full_id ∉ processed_ids).map
      fun e => ⟨e.2.full_id, e.2.url⟩

/-! ## Derived views used to state the theorems -/

/-- The identifiers `_process_batch_results` checkpoints for a delivered
list: those of `error` and `markdown` dicts, but not of `batch_error`
markers. -/
def sink_ids (results : List WorkerResult) : List String :=
  results.filterMap fun r =>
    match r with
    | .success arxiv_id _ => some arxiv_id
    | .failure arxiv_id _ => some arxiv_id
    | .batchError _ => none

/-- The records `_process_batch_results` appends to the JSONL output for a
delivered list: one per `markdown` dict. -/
def success_records (results : List WorkerResult) : List OutputRecord :=
  results.filterMap fun r =>
    match r with
    | .success arxiv_id markdown => some (⟨arxiv_id, markdown⟩ : OutputRecord)
    | _ => none

/-- A `paper_versions` entry can be traced back to one of the listed
urls: its base id, version, full id and url all come from parsing that
url. -/
def entry_from (urls : List String) (e : String × VersionInfo) : Prop :=
  ∃ u ∈ urls,
    parse_version (extract_paper_id u) = (e.1, e.2.version)
      ∧ extract_paper_id u = e.2.full_id ∧ u = e.2.url

/-- A `paper_versions` entry dominates every listed url of its base id:
no url parses to the same base with a strictly higher version. -/
def entry_dom (urls : List String) (e : String × VersionInfo) : Prop :=
  ∀ u ∈ urls, (parse_version (extract_paper_id u)).1 = e.1
    → (parse_version (extract_paper_id u)).2 ≤ e.2.version

/-- The base id of a url has an entry in the `paper_versions` dict. -/
def key_present (acc : List (String × VersionInfo)) (u : String) : Prop :=
  (List.lookup (parse_version (extract_paper_id u)).1 acc).isSome = true

/-- Invariant of the grouping loop of `list_papers`: every dict entry
originates in a seen url and dominates all seen urls of its base id,
every seen url has an entry for its base id, and the dict keys are
distinct. -/
def lister_inv (acc : List (String × VersionInfo)) (seen : List String) : Prop :=
  (∀ e ∈ acc, entry_from seen e ∧ entry_dom seen e)
    ∧ (∀ u ∈ seen, key_present acc u)
    ∧ (acc.map Prod.fst).Nodup

/-- A worker behaviour that never fails during converter construction. -/
def Covering (beh : ExecBehavior) : Prop :=
  ∀ env, beh = ExecBehavior.work env → env.initOk = true

instance (beh : ExecBehavior) : Decidable (Covering beh) := by
  unfold Covering
  cases beh with
  | work env =>
      by_cases h : env.initOk = true
      · exact isTrue fun _ he => by cases he; exact h
      · exact isFalse fun hc => h (hc _ rfl)
  | hang proc => exact isTrue fun _ he => by cases he
  | mgmt msg proc => exact isTrue fun _ he => by cases he
  | garbled => exact isTrue fun _ he => by cases he

/-! ## Characterization lemmas -/

theorem checkpoint_fold_spec (batch : List FetchedPaper) (s : PState) :
    batch.foldl (fun t p => update_checkpoint t p.arxiv_id) s
      = { s with checkpointFile := s.checkpointFile ++ batch.map (·.arxiv_id) } := by
  induction batch generalizing s with
  | nil => simp
  | cons p rest ih =>
      rw [List.foldl_cons, ih]
      simp [update_checkpoint, List.append_assoc]

theorem process_fold_spec (results : List WorkerResult) (s : PState) (n : Nat) :
    results.foldl process_one_result (s, n)
      = ({ s with checkpointFile := s.checkpointFile ++ sink_ids results,
                  dataset := s.dataset ++ success_records results },
         n + (success_records results).length) := by
  induction results generalizing s n with
  | nil => simp [sink_ids, success_records]
  | cons r rest ih =>
      cases r with
      | success arxiv_id markdown =>
          simp [process_one_result, ih, update_checkpoint, sink_ids, success_records,
            List.filterMap_cons, List.append_assoc]
          omega
      | failure arxiv_id e =>
          simp [process_one_result, ih, update_checkpoint, sink_ids, success_records,
            List.filterMap_cons, List.append_assoc]
      | batchError e =>
          simp [process_one_result, ih, sink_ids, success_records, List.filterMap_cons]

theorem process_batch_results_some (s : PState) (results : List WorkerResult)
    (batch : List FetchedPaper) :
    process_batch_results s (some results) batch
      = ({ s with checkpointFile := s.checkpointFile ++ sink_ids results,
                  dataset := s.dataset ++ success_records results },
         (success_records results).length) := by
  simp [process_batch_results, process_fold_spec]

theorem process_batch_results_none (s : PState) (batch : List FetchedPaper) :
    process_batch_results s none batch
      = ({ s with checkpointFile := s.checkpointFile ++ batch.map (·.arxiv_id) }, 0) := by
  simp [process_batch_results, checkpoint_fold_spec]

theorem worker_loop_eq_map (env : ConvEnv) (batch : List FetchedPaper)
    (acc : List WorkerResult) :
    worker_loop env batch acc = acc ++ batch.map (convert_one env) := by
  induction batch generalizing acc with
  | nil => simp [worker_loop]
  | cons p rest ih => simp [worker_loop, ih]

theorem handle_batch_failure_fold (batch : List FetchedPaper) (s : PState)
    (acc : List WorkerResult) (msg : String) :
    batch.foldl
        (fun tl p =>
          (update_checkpoint tl.1 p.arxiv_id, tl.2 ++ [.failure p.arxiv_id msg]))
        (s, acc)
      = ({ s with checkpointFile := s.checkpointFile ++ batch.map (·.arxiv_id) },
         acc ++ batch.map fun p => WorkerResult.failure p.arxiv_id msg) := by
  induction batch generalizing s acc with
  | nil => simp
  | cons p rest ih =>
      rw [List.foldl_cons, ih]
      simp [update_checkpoint, List.append_assoc]

theorem handle_batch_failure_spec (s : PState) (batch : List FetchedPaper) (msg : String) :
    handle_batch_failure s batch msg
      = ({ s with checkpointFile := s.checkpointFile ++ batch.map (·.arxiv_id) },
         batch.map fun p => WorkerResult.failure p.arxiv_id msg) := by
  simp [handle_batch_failure, handle_batch_failure_fold]

theorem sink_ids_failures (batch : List FetchedPaper) (msg : String) :
    sink_ids (batch.map fun p => WorkerResult.failure p.arxiv_id msg)
      = batch.map (·.arxiv_id) := by
  induction batch with
  | nil => simp [sink_ids]
  | cons p rest ih => simp_all [sink_ids]

theorem success_records_failures (batch : List FetchedPaper) (msg : String) :
    success_records (batch.map fun p => WorkerResult.failure p.arxiv_id msg) = [] := by
  induction batch with
  | nil => simp [success_records]
  | cons p rest ih => simp_all [success_records]

theorem convert_one_id (env : ConvEnv) (p : FetchedPaper) :
    convert_one env p = WorkerResult.success p.arxiv_id ((env.convert p).toOption.getD "")
      ∨ ∃ e, convert_one env p = WorkerResult.failure p.arxiv_id e := by
  unfold convert_one
  by_cases h : env.fileExists p.local_path
  · cases hc : env.convert p with
    | ok markdown => left; simp [h, hc, Except.toOption]
    | error e => right; exact ⟨e, by simp [h, hc]⟩
  · right; exact ⟨"PDF path missing or invalid.", by simp [h]⟩

theorem sink_ids_convert (env : ConvEnv) (batch : List FetchedPaper) :
    sink_ids (batch.map (convert_one env)) = batch.map (·.arxiv_id) := by
  induction batch with
  | nil => simp [sink_ids]
  | cons p rest ih =>
      rcases convert_one_id env p with h | ⟨e, h⟩ <;>
        simp_all [sink_ids]

theorem process_batch_work (s : PState) (batch : List FetchedPaper) (T : Nat)
    (env : ConvEnv) (h : env.initOk = true) :
    process_batch s batch T (.work env)
      = ({ s with
            checkpointFile := s.checkpointFile ++ batch.map (·.arxiv_id),
            dataset := s.dataset ++ success_records (batch.map (convert_one env)) },
         (success_records (batch.map (convert_one env))).length) := by
  simp [process_batch, convert_batch_with_process_timeout, batch_convert_worker, h,
    worker_loop_eq_map, process_batch_results_some, sink_ids_convert]

theorem process_batch_work_bad (s : PState) (batch : List FetchedPaper) (T : Nat)
    (env : ConvEnv) (h : env.initOk = false) :
    process_batch s batch T (.work env) = (s, 0) := by
  simp [process_batch, convert_batch_with_process_timeout, batch_convert_worker, h,
    process_batch_results_some, sink_ids, success_records]

theorem process_batch_hang (s : PState) (batch : List FetchedPaper) (T : Nat)
    (proc : WorkerProc) :
    process_batch s batch T (.hang proc)
      = ({ s with
            checkpointFile :=
              s.checkpointFile ++ batch.map (·.arxiv_id) ++ batch.map (·.arxiv_id) },
         0) := by
  simp [process_batch, convert_batch_with_process_timeout, handle_batch_failure_spec,
    process_batch_results_some, sink_ids_failures, success_records_failures,
    List.append_assoc]

theorem process_batch_mgmt (s : PState) (batch : List FetchedPaper) (T : Nat)
    (msg : String) (proc : WorkerProc) :
    process_batch s batch T (.mgmt msg proc)
      = ({ s with
            checkpointFile :=
              s.checkpointFile ++ batch.map (·.arxiv_id) ++ batch.map (·.arxiv_id) },
         0) := by
  simp [process_batch, convert_batch_with_process_timeout, handle_batch_failure_spec,
    process_batch_results_some, sink_ids_failures, success_records_failures,
    List.append_assoc]

theorem process_batch_garbled (s : PState) (batch : List FetchedPaper) (T : Nat) :
    process_batch s batch T .garbled
      = ({ s with checkpointFile := s.checkpointFile ++ batch.map (·.arxiv_id) }, 0) := by
  simp [process_batch, convert_batch_with_process_timeout, process_batch_results_none]

theorem process_batch_covers (s : PState) (batch : List FetchedPaper) (T : Nat)
    (beh : ExecBehavior) (hc : Covering beh) (p : FetchedPaper) (hp : p ∈ batch) :
    p.arxiv_id ∈ (process_batch s batch T beh).1.checkpointFile := by
  have hid : p.arxiv_id ∈ batch.map (·.arxiv_id) := List.mem_map_of_mem _ hp
  cases beh with
  | work env =>
      have := hc env rfl
      rw [process_batch_work s batch T env this]
      simp [hid]
  | hang proc => rw [process_batch_hang]; simp [hid]
  | mgmt msg proc => rw [process_batch_mgmt]; simp [hid]
  | garbled => rw [process_batch_garbled]; simp [hid]

theorem process_batch_file_mono (s : PState) (batch : List FetchedPaper) (T : Nat)
    (beh : ExecBehavior) (x : String) (hx : x ∈ s.checkpointFile) :
    x ∈ (process_batch s batch T beh).1.checkpointFile := by
  cases beh with
  | work env =>
      by_cases h : env.initOk = true
      · rw [process_batch_work s batch T env h]; simp [hx]
      · rw [process_batch_work_bad s batch T env (by simpa using h)]; exact hx
  | hang proc => rw [process_batch_hang]; simp [hx]
  | mgmt msg proc => rw [process_batch_mgmt]; simp [hx]
  | garbled => rw [process_batch_garbled]; simp [hx]

theorem download_paper_id (fetch : Paper → FetchOutcome) (p : Paper) (f : FetchedPaper)
    (h : download_paper fetch p = some f) : f.arxiv_id = p.arxiv_id := by
  unfold download_paper at h
  cases hf : fetch p <;> rw [hf] at h
  · have h2 := Option.some.inj h
    subst h2
    rfl
  · exact Option.noConfusion h
  · exact Option.noConfusion h

theorem downloader_fold_spec (fetch : Paper → FetchOutcome) (papers : List Paper)
    (s : PState) (acc : List (Option FetchedPaper)) :
    papers.foldl
        (fun tl paper =>
          match download_paper fetch paper with
          | some paper_data => (tl.1, tl.2 ++ [some paper_data])
          | none => (update_checkpoint tl.1 paper.arxiv_id, tl.2))
        (s, acc)
      = ({ s with
            checkpointFile := s.checkpointFile
              ++ (papers.filter fun p => (download_paper fetch p).isNone).map
                    (·.arxiv_id) },
         acc ++ (papers.filterMap (download_paper fetch)).map some) := by
  induction papers generalizing s acc with
  | nil => simp
  | cons p rest ih =>
      rw [List.foldl_cons]
      cases hd : download_paper fetch p with
      | some f =>
          simp only [hd]
          rw [ih]
          simp [hd, List.filter_cons, List.filterMap_cons]
      | none =>
          simp only [hd]
          rw [ih]
          simp [hd, update_checkpoint, List.filter_cons, List.filterMap_cons,
            List.append_assoc]

theorem downloader_thread_spec (fetch : Paper → FetchOutcome) (papers : List Paper)
    (s : PState) :
    downloader_thread fetch papers s
      = ({ s with
            checkpointFile := s.checkpointFile
              ++ (papers.filter fun p => (download_paper fetch p).isNone).map
                    (·.arxiv_id) },
         (papers.filterMap (download_paper fetch)).map some ++ [none]) := by
  simp [downloader_thread, downloader_fold_spec]

theorem queue_events_spec (fetched : List FetchedPaper) :
    queue_events (fetched.map some ++ [none])
      = fetched.map QEvent.item ++ [QEvent.sentinelTok] := by
  induction fetched with
  | nil => simp [queue_events]
  | cons f rest ih => simp_all [queue_events]

/-! ### Gather-loop lemmas -/

theorem gather_loop_full (batch_size : Nat) (is1 : List FetchedPaper)
    (rest : List QEvent) (acc : List FetchedPaper)
    (h : acc.length + is1.length = batch_size) :
    gather_loop batch_size (is1.map QEvent.item ++ rest) acc
      = (acc ++ is1, true, false, rest) := by
  induction is1 generalizing acc with
  | nil =>
      have hfull : batch_size ≤ acc.length := by simp at h; omega
      cases rest with
      | nil => simp [gather_loop, hfull]
      | cons e tl => simp [gather_loop, hfull]
  | cons p tl ih =>
      have hlt : ¬ batch_size ≤ acc.length := by simp at h; omega
      simp only [List.map_cons, List.cons_append, gather_loop, hlt, if_false,
        List.append_eq]
      rw [ih (acc ++ [p]) (by simp at h ⊢; omega)]
      simp

theorem gather_loop_short (batch_size : Nat) (is : List FetchedPaper)
    (acc : List FetchedPaper) (h : acc.length + is.length < batch_size) :
    gather_loop batch_size (is.map QEvent.item ++ [QEvent.sentinelTok]) acc
      = (acc ++ is, false, true, []) := by
  induction is generalizing acc with
  | nil =>
      have hlt : ¬ batch_size ≤ acc.length := by omega
      simp [gather_loop, hlt]
  | cons p tl ih =>
      have hlt : ¬ batch_size ≤ acc.length := by simp at h; omega
      simp only [List.map_cons, List.cons_append, gather_loop, hlt, if_false,
        List.append_eq]
      rw [ih (acc ++ [p]) (by simp at h ⊢; omega)]
      simp

theorem gather_loop_len (batch_size : Nat) (events : List QEvent)
    (acc : List FetchedPaper) (h : acc.length ≤ batch_size) :
    (gather_loop batch_size events acc).1.length ≤ batch_size
      ∧ ((gather_loop batch_size events acc).2.1 = true
          → (gather_loop batch_size events acc).1.length = batch_size) := by
  induction events generalizing acc with
  | nil =>
      by_cases hfull : batch_size ≤ acc.length
      · simp [gather_loop, hfull]; omega
      · simp [gather_loop, hfull, h]
  | cons e rest ih =>
      by_cases hfull : batch_size ≤ acc.length
      · simp [gather_loop, hfull]; omega
      · cases e with
        | item p =>
            simp only [gather_loop, hfull, if_false]
            exact ih (acc ++ [p]) (by simp; omega)
        | sentinelTok => simp [gather_loop, hfull, h]
        | idleTimeout a q => simp [gather_loop, hfull, h]

theorem gather_loop_rest_suffix (batch_size : Nat) (events : List QEvent)
    (acc : List FetchedPaper) :
    ∃ pre, pre ++ (gather_loop batch_size events acc).2.2.2 = events := by
  induction events generalizing acc with
  | nil =>
      by_cases hfull : batch_size ≤ acc.length <;> exact ⟨[], by simp [gather_loop, hfull]⟩
  | cons e rest ih =>
      by_cases hfull : batch_size ≤ acc.length
      · exact ⟨[], by simp [gather_loop, hfull]⟩
      · cases e with
        | item p =>
            obtain ⟨pre, hpre⟩ := ih (acc ++ [p])
            exact ⟨QEvent.item p :: pre, by simp [gather_loop, hfull, hpre]⟩
        | sentinelTok => exact ⟨[QEvent.sentinelTok], by simp [gather_loop, hfull]⟩
        | idleTimeout a q => exact ⟨[QEvent.idleTimeout a q], by simp [gather_loop, hfull]⟩

theorem gather_loop_no_timeout_done (batch_size : Nat) (events : List QEvent)
    (acc : List FetchedPaper)
    (hnt : ∀ a q, QEvent.idleTimeout a q ∉ events)
    (hfullF : (gather_loop batch_size events acc).2.1 = false) :
    (gather_loop batch_size events acc).2.2.1 = true := by
  induction events generalizing acc with
  | nil =>
      by_cases hfull : batch_size ≤ acc.length
      · simp [gather_loop, hfull] at hfullF
      · simp [gather_loop, hfull]
  | cons e rest ih =>
      by_cases hfull : batch_size ≤ acc.length
      · simp [gather_loop, hfull] at hfullF
      · cases e with
        | item p =>
            simp only [gather_loop, hfull, if_false] at hfullF ⊢
            exact ih (acc ++ [p]) (fun a q hm => hnt a q (List.mem_cons_of_mem _ hm)) hfullF
        | sentinelTok => simp [gather_loop, hfull]
        | idleTimeout a q => exact absurd (List.mem_cons_self _ _) (hnt a q)

/-! ### Main-loop lemmas -/

theorem run_loop_file_mono (batch_size T : Nat) (behaviors : Nat → ExecBehavior) :
    ∀ (fuel : Nat) (s : PState) (events : List QEvent) (k : Nat) (x : String),
      x ∈ s.checkpointFile
      → x ∈ (run_loop batch_size T behaviors fuel s events k).1.checkpointFile := by
  intro fuel
  induction fuel with
  | zero => intro s events k x hx; exact hx
  | succ n ih =>
      intro s events k x hx
      simp only [run_loop]
      split
      · split
        · exact hx
        · exact ih _ _ _ _ hx
      · split
        · exact process_batch_file_mono _ _ _ _ _ hx
        · exact ih _ _ _ _ (process_batch_file_mono _ _ _ _ _ hx)

theorem run_loop_covers (batch_size T : Nat) (behaviors : Nat → ExecBehavior)
    (hbs : 0 < batch_size) (hbeh : ∀ k, Covering (behaviors k)) :
    ∀ (fuel : Nat) (is : List FetchedPaper) (s : PState) (k : Nat),
      is.length < fuel
      → ∀ f ∈ is,
          f.arxiv_id ∈
            (run_loop batch_size T behaviors fuel s
              (is.map QEvent.item ++ [QEvent.sentinelTok]) k).1.checkpointFile := by
  intro fuel
  induction fuel with
  | zero => intro is s k hlen f hf; omega
  | succ n ih =>
      intro is s k hlen f hf
      by_cases hshort : is.length < batch_size
      · have hg : gather_batch batch_size (is.map QEvent.item ++ [QEvent.sentinelTok])
            = (is, false, true, []) := by
          unfold gather_batch
          exact gather_loop_short _ _ _ (by simpa using hshort)
        have hne : is.isEmpty = false := by
          cases is with
          | nil => cases hf
          | cons a b => rfl
        simp only [run_loop, hg, hne, Bool.false_eq_true, if_false, Bool.not_false,
          Bool.true_and, if_true]
        exact process_batch_covers _ _ _ _ (hbeh k) f hf
      · have htk : (is.take batch_size).length = batch_size :=
          List.length_take_of_le (by omega)
        have hg : gather_batch batch_size (is.map QEvent.item ++ [QEvent.sentinelTok])
            = (is.take batch_size, true, false,
               (is.drop batch_size).map QEvent.item ++ [QEvent.sentinelTok]) := by
          unfold gather_batch
          have hfl := gather_loop_full batch_size (is.take batch_size)
            ((is.drop batch_size).map QEvent.item ++ [QEvent.sentinelTok]) []
            (by simpa using htk)
          have hev : is.map QEvent.item ++ [QEvent.sentinelTok]
              = (is.take batch_size).map QEvent.item
                ++ ((is.drop batch_size).map QEvent.item ++ [QEvent.sentinelTok]) := by
            rw [← List.append_assoc, ← List.map_append, List.take_append_drop]
          rw [hev]
          simpa using hfl
        have hne : (is.take batch_size).isEmpty = false := by
          cases htake : is.take batch_size with
          | nil => rw [htake] at htk; simp at htk; omega
          | cons a b => rfl
        simp only [run_loop, hg, hne, Bool.false_eq_true, if_false, Bool.not_true,
          Bool.false_and, if_true]
        rcases (List.mem_append.mp (by rw [List.take_append_drop]; exact hf :
            f ∈ is.take batch_size ++ is.drop batch_size)) with hmem | hmem
        · exact run_loop_file_mono batch_size T behaviors n _ _ _ _
            (process_batch_covers _ _ _ _ (hbeh k) f hmem)
        · have hd : (is.drop batch_size).length < n := by
            have := List.length_drop batch_size is
            omega
          exact ih (is.drop batch_size) _ (k + 1) hd f hmem

theorem run_loop_batch_le (batch_size T : Nat) (behaviors : Nat → ExecBehavior) :
    ∀ (fuel : Nat) (s : PState) (events : List QEvent) (k : Nat)
      (b : List FetchedPaper),
      b ∈ (run_loop batch_size T behaviors fuel s events k).2
      → b.length ≤ batch_size := by
  intro fuel
  induction fuel with
  | zero => intro s events k b hb; cases hb
  | succ n ih =>
      intro s events k b hb
      have hlen : (gather_batch batch_size events).1.length ≤ batch_size :=
        (gather_loop_len batch_size events [] (by simp)).1
      simp only [run_loop] at hb
      split at hb
      · split at hb
        · cases hb
        · exact ih _ _ _ _ hb
      · split at hb
        · rcases List.mem_singleton.mp hb with rfl
          exact hlen
        · rcases List.mem_cons.mp hb with rfl | hb2
          · exact hlen
          · exact ih _ _ _ _ hb2

theorem run_loop_nonfinal_full (batch_size T : Nat) (behaviors : Nat → ExecBehavior) :
    ∀ (fuel : Nat) (s : PState) (events : List QEvent) (k : Nat),
      (∀ a q, QEvent.idleTimeout a q ∉ events)
      → ∀ i, i + 1 < (run_loop batch_size T behaviors fuel s events k).2.length
      → ((run_loop batch_size T behaviors fuel s events k).2.getD i []).length
          = batch_size := by
  intro fuel
  induction fuel with
  | zero => intro s events k _ i hi; simp [run_loop] at hi
  | succ n ih =>
      intro s events k hnt i hi
      have hrest : ∀ a q,
          QEvent.idleTimeout a q ∉ (gather_batch batch_size events).2.2.2 := by
        intro a q hm
        obtain ⟨pre, hpre⟩ := gather_loop_rest_suffix batch_size events []
        exact hnt a q (by rw [← hpre]; exact List.mem_append_right _ hm)
      have hfull_len : (gather_batch batch_size events).2.1 = true
          → (gather_batch batch_size events).1.length = batch_size :=
        (gather_loop_len batch_size events [] (by simp)).2
      simp only [run_loop] at hi ⊢
      revert hi
      split
      · split
        · intro hi; simp at hi
        · intro hi; exact ih _ _ _ hrest i hi
      · rename_i hne
        split
        · intro hi; simp at hi
        · rename_i hcont
          intro hi
          have hfull : (gather_batch batch_size events).2.1 = true := by
            by_contra hF
            have hF' : (gather_batch batch_size events).2.1 = false := by
              simpa using hF
            have hdone : (gather_batch batch_size events).2.2.1 = true :=
              gather_loop_no_timeout_done batch_size events [] hnt hF'
            exact hcont (by rw [hF', hdone]; rfl)
          cases i with
          | zero => simpa using hfull_len hfull
          | succ j =>
              simp only [List.getD_cons_succ]
              exact ih _ _ _ hrest j (by simp at hi; omega)

theorem process_batch_pids (s : PState) (batch : List FetchedPaper) (T : Nat)
    (beh : ExecBehavior) :
    (process_batch s batch T beh).1.processed_ids = s.processed_ids := by
  cases beh with
  | work env =>
      by_cases h : env.initOk = true
      · rw [process_batch_work s batch T env h]
      · rw [process_batch_work_bad s batch T env (by simpa using h)]
  | hang proc => rw [process_batch_hang]
  | mgmt msg proc => rw [process_batch_mgmt]
  | garbled => rw [process_batch_garbled]

theorem process_batch_dataset_mono (s : PState) (batch : List FetchedPaper) (T : Nat)
    (beh : ExecBehavior) :
    ∃ l, (process_batch s batch T beh).1.dataset = s.dataset ++ l := by
  cases beh with
  | work env =>
      by_cases h : env.initOk = true
      · rw [process_batch_work s batch T env h]; exact ⟨_, rfl⟩
      · rw [process_batch_work_bad s batch T env (by simpa using h)]
        exact ⟨[], by simp⟩
  | hang proc => rw [process_batch_hang]; exact ⟨[], by simp⟩
  | mgmt msg proc => rw [process_batch_mgmt]; exact ⟨[], by simp⟩
  | garbled => rw [process_batch_garbled]; exact ⟨[], by simp⟩

theorem run_loop_pids (batch_size T : Nat) (behaviors : Nat → ExecBehavior) :
    ∀ (fuel : Nat) (s : PState) (events : List QEvent) (k : Nat),
      (run_loop batch_size T behaviors fuel s events k).1.processed_ids
        = s.processed_ids := by
  intro fuel
  induction fuel with
  | zero => intro s events k; rfl
  | succ n ih =>
      intro s events k
      simp only [run_loop]
      split
      · split
        · rfl
        · exact ih _ _ _
      · split
        · exact process_batch_pids _ _ _ _
        · rw [ih]; exact process_batch_pids _ _ _ _

/-! ### Association-list lemmas for the `paper_versions` dict -/

theorem lookup_none_not_mem (a : String) (l : List (String × VersionInfo))
    (h : List.lookup a l = none) : ∀ e ∈ l, e.1 ≠ a := by
  induction l with
  | nil => intro e he; cases he
  | cons p rest ih =>
      intro e he
      rw [List.lookup_cons] at h
      by_cases hk : (a == p.1) = true
      · simp only [hk] at h
        cases h
      · have hk' : (a == p.1) = false := by simpa using hk
        simp only [hk'] at h
        rcases List.mem_cons.mp he with rfl | he2
        · intro hEq
          rw [hEq] at hk'
          simp at hk'
        · exact ih h e he2

theorem lookup_some_of_mem_nodup (l : List (String × VersionInfo))
    (hnd : (l.map Prod.fst).Nodup) (e : String × VersionInfo) (he : e ∈ l) :
    List.lookup e.1 l = some e.2 := by
  induction l with
  | nil => cases he
  | cons p rest ih =>
      rw [List.map_cons, List.nodup_cons] at hnd
      rcases List.mem_cons.mp he with rfl | he2
      · rw [List.lookup_cons]
        simp
      · have hne : (e.1 == p.1) = false := by
          refine beq_eq_false_iff_ne.mpr fun hEq => hnd.1 ?_
          rw [← hEq]
          exact List.mem_map_of_mem _ he2
        rw [List.lookup_cons]
        simp only [hne]
        exact ih hnd.2 he2

theorem lookup_append_some (a : String) (l1 l2 : List (String × VersionInfo))
    (x : VersionInfo) (h : List.lookup a l1 = some x) :
    List.lookup a (l1 ++ l2) = some x := by
  induction l1 with
  | nil => cases h
  | cons p rest ih =>
      rw [List.lookup_cons] at h
      rw [List.cons_append, List.lookup_cons]
      by_cases hk : (a == p.1) = true
      · simp only [hk] at h ⊢
        exact h
      · have hk' : (a == p.1) = false := by simpa using hk
        simp only [hk'] at h ⊢
        exact ih h

theorem lookup_append_none (a : String) (l1 l2 : List (String × VersionInfo))
    (h : List.lookup a l1 = none) :
    List.lookup a (l1 ++ l2) = List.lookup a l2 := by
  induction l1 with
  | nil => simp
  | cons p rest ih =>
      rw [List.lookup_cons] at h
      rw [List.cons_append, List.lookup_cons]
      by_cases hk : (a == p.1) = true
      · simp only [hk] at h
        cases h
      · have hk' : (a == p.1) = false := by simpa using hk
        simp only [hk'] at h ⊢
        exact ih h

theorem keys_map_repl (l : List (String × VersionInfo)) (b : String) (x : VersionInfo) :
    (l.map fun e => if e.1 = b then (b, x) else e).map Prod.fst = l.map Prod.fst := by
  induction l with
  | nil => rfl
  | cons p rest ih =>
      by_cases hk : p.1 = b <;> simp [hk, ih]

theorem lookup_map_repl_isSome (l : List (String × VersionInfo)) (a b : String)
    (x : VersionInfo) :
    ((l.map fun e => if e.1 = b then (b, x) else e).lookup a).isSome
      = (l.lookup a).isSome := by
  induction l with
  | nil => rfl
  | cons p rest ih =>
      rw [List.map_cons, List.lookup_cons, List.lookup_cons]
      by_cases hk : p.1 = b
      · rw [if_pos hk]
        by_cases ha : (a == b) = true
        · have ha2 : (a == p.1) = true := by rw [hk]; exact ha
          simp only [ha, ha2, Option.isSome_some]
        · have ha' : (a == b) = false := by simpa using ha
          have ha2 : (a == p.1) = false := by rw [hk]; exact ha'
          simp only [ha', ha2]
          exact ih
      · rw [if_neg hk]
        by_cases ha : (a == p.1) = true
        · simp only [ha]
        · have ha' : (a == p.1) = false := by simpa using ha
          simp only [ha']
          exact ih

theorem update_versions_step (acc : List (String × VersionInfo)) (seen : List String)
    (u : String) (h : lister_inv acc seen) :
    lister_inv (update_versions acc u) (seen ++ [u]) := by
  obtain ⟨hfrom, hkeys, hnd⟩ := h
  cases hlk : List.lookup (parse_version (extract_paper_id u)).1 acc with
  | none =>
      have hupd : update_versions acc u
          = acc ++ [((parse_version (extract_paper_id u)).1,
              ⟨(parse_version (extract_paper_id u)).2, extract_paper_id u, u⟩)] := by
        simp only [update_versions]
        rw [hlk]
      rw [hupd]
      refine ⟨?_, ?_, ?_⟩
      · intro e he
        rcases List.mem_append.mp he with he1 | he2
        · obtain ⟨hf, hd⟩ := hfrom e he1
          refine ⟨?_, ?_⟩
          · obtain ⟨w, hw, hprop⟩ := hf
            exact ⟨w, List.mem_append_left _ hw, hprop⟩
          · intro w hw hbase
            rcases List.mem_append.mp hw with hw1 | hw2
            · exact hd w hw1 hbase
            · rcases List.mem_singleton.mp hw2 with rfl
              exact absurd hbase.symm (lookup_none_not_mem _ acc hlk e he1)
        · rcases List.mem_singleton.mp he2 with rfl
          refine ⟨⟨u, List.mem_append_right _ (List.mem_singleton_self u), rfl, rfl, rfl⟩, ?_⟩
          intro w hw hbase
          rcases List.mem_append.mp hw with hw1 | hw2
          · have hkp := hkeys w hw1
            rw [key_present, hbase] at hkp
            rw [hlk] at hkp
            simp at hkp
          · rcases List.mem_singleton.mp hw2 with rfl
            exact le_refl _
      · intro w hw
        rcases List.mem_append.mp hw with hw1 | hw2
        · have hkp := hkeys w hw1
          rw [key_present] at hkp ⊢
          cases hsome : List.lookup (parse_version (extract_paper_id w)).1 acc with
          | none => rw [hsome] at hkp; simp at hkp
          | some y => rw [lookup_append_some _ _ _ _ hsome]; rfl
        · rcases List.mem_singleton.mp hw2 with rfl
          rw [key_present, lookup_append_none _ _ _ hlk, List.lookup_cons]
          simp
      · rw [List.map_append]
        refine List.Nodup.append hnd (List.nodup_singleton _) ?_
        intro a ha hb
        rcases List.mem_singleton.mp hb with rfl
        obtain ⟨e, he, hfst⟩ := List.mem_map.mp ha
        exact lookup_none_not_mem _ acc hlk e he hfst
  | some info =>
      by_cases hgt : (parse_version (extract_paper_id u)).2 > info.version
      · have hupd : update_versions acc u
            = acc.map fun e =>
                if e.1 = (parse_version (extract_paper_id u)).1 then
                  ((parse_version (extract_paper_id u)).1,
                    ⟨(parse_version (extract_paper_id u)).2, extract_paper_id u, u⟩)
                else e := by
          simp only [update_versions]
          rw [hlk]
          simp only [hgt, if_true]
        rw [hupd]
        refine ⟨?_, ?_, ?_⟩
        · intro e' he'
          obtain ⟨e, he, hrepl⟩ := List.mem_map.mp he'
          by_cases hbk : e.1 = (parse_version (extract_paper_id u)).1
          · rw [if_pos hbk] at hrepl
            subst hrepl
            have hinfo : e.2 = info := by
              have hmem := lookup_some_of_mem_nodup acc hnd e he
              rw [hbk, hlk] at hmem
              exact (Option.some.inj hmem).symm
            refine ⟨⟨u, List.mem_append_right _ (List.mem_singleton_self u),
              rfl, rfl, rfl⟩, ?_⟩
            intro w hw hbase
            rcases List.mem_append.mp hw with hw1 | hw2
            · obtain ⟨_, hd⟩ := hfrom e he
              have hle := hd w hw1 (by rw [hbase, hbk])
              calc (parse_version (extract_paper_id w)).2
                  ≤ e.2.version := hle
                _ ≤ (parse_version (extract_paper_id u)).2 := by
                    rw [hinfo]; exact le_of_lt hgt
            · rcases List.mem_singleton.mp hw2 with rfl
              exact le_refl _
          · rw [if_neg hbk] at hrepl
            subst hrepl
            obtain ⟨hf, hd⟩ := hfrom e he
            refine ⟨?_, ?_⟩
            · obtain ⟨w, hw, hprop⟩ := hf
              exact ⟨w, List.mem_append_left _ hw, hprop⟩
            · intro w hw hbase
              rcases List.mem_append.mp hw with hw1 | hw2
              · exact hd w hw1 hbase
              · rcases List.mem_singleton.mp hw2 with rfl
                exact absurd hbase.symm hbk
        · intro w hw
          rcases List.mem_append.mp hw with hw1 | hw2
          · have hkp := hkeys w hw1
            rw [key_present] at hkp ⊢
            rw [lookup_map_repl_isSome]
            exact hkp
          · rcases List.mem_singleton.mp hw2 with rfl
            rw [key_present, lookup_map_repl_isSome, hlk]
            rfl
        · rw [keys_map_repl]
          exact hnd
      · have hupd : update_versions acc u = acc := by
          simp only [update_versions]
          rw [hlk]
          simp only [hgt, if_false]
        rw [hupd]
        refine ⟨?_, ?_, ?_⟩
        · intro e he
          obtain ⟨hf, hd⟩ := hfrom e he
          refine ⟨?_, ?_⟩
          · obtain ⟨w, hw, hprop⟩ := hf
            exact ⟨w, List.mem_append_left _ hw, hprop⟩
          · intro w hw hbase
            rcases List.mem_append.mp hw with hw1 | hw2
            · exact hd w hw1 hbase
            · rcases List.mem_singleton.mp hw2 with rfl
              have hinfo : e.2 = info := by
                have hmem := lookup_some_of_mem_nodup acc hnd e he
                rw [hbase] at hlk
                rw [hlk] at hmem
                exact (Option.some.inj hmem).symm
              rw [hinfo]
              exact le_of_not_lt hgt
        · intro w hw
          rcases List.mem_append.mp hw with hw1 | hw2
          · exact hkeys w hw1
          · rcases List.mem_singleton.mp hw2 with rfl
            rw [key_present, hlk]
            rfl
        · exact hnd

theorem update_versions_fold (urls : List String) :
    ∀ (seen : List String) (acc : List (String × VersionInfo)),
      lister_inv acc seen
      → lister_inv (urls.foldl update_versions acc) (seen ++ urls) := by
  induction urls with
  | nil => intro seen acc h; simpa using h
  | cons u rest ih =>
      intro seen acc h
      have hstep := update_versions_step acc seen u h
      have := ih (seen ++ [u]) (update_versions acc u) hstep
      simpa using this

theorem mem_sink_of_success (results : List WorkerResult) (r : OutputRecord)
    (h : r ∈ success_records results) : r.arxiv_id ∈ sink_ids results := by
  induction results with
  | nil => cases h
  | cons x rest ih =>
      cases x with
      | success arxiv_id markdown =>
          simp only [success_records, List.filterMap_cons] at h
          rcases List.mem_cons.mp h with rfl | h2
          · simp [sink_ids]
          · simp only [sink_ids, List.filterMap_cons]
            exact List.mem_cons_of_mem _ (ih (by simpa [success_records] using h2))
      | failure arxiv_id e =>
          simp only [success_records, List.filterMap_cons] at h
          simp only [sink_ids, List.filterMap_cons]
          exact List.mem_cons_of_mem _ (ih h)
      | batchError e =>
          simp only [success_records, List.filterMap_cons] at h
          simp only [sink_ids, List.filterMap_cons]
          exact ih h

/-! ## The claims -/

/-- Claim C3: when the executor does not deliver a result within the
scaled deadline (per-item timeout × batch size), the controller requests
graceful termination, waits the 5 second grace period, force-kills the
process exactly when it is still alive, and synthesizes exactly one
Failure per item of the batch with the batch-timeout reason; an exception
while managing the executor takes the same path with the
process-management reason, so on both of these paths every item of the
batch ends with exactly one result. -/
theorem C3_timeout_escalation (s : PState) (batch : List FetchedPaper)
    (timeout batch_size : Nat) (proc : WorkerProc) (msg : String) :
    (convert_batch_with_process_timeout s batch (batch_timeout timeout batch_size)
          (.hang proc)).batch_results
        = some (batch.map fun p =>
            WorkerResult.failure p.arxiv_id
              ("Batch timeout after " ++ toString (batch_timeout timeout batch_size) ++ "s"))
      ∧ (convert_batch_with_process_timeout s batch (batch_timeout timeout batch_size)
          (.hang proc)).termination
        = some ⟨true, 5, proc.survivesTerminate⟩
      ∧ (convert_batch_with_process_timeout s batch (batch_timeout timeout batch_size)
          (.mgmt msg proc)).batch_results
        = some (batch.map fun p =>
            WorkerResult.failure p.arxiv_id ("Batch process management error: " ++ msg))
      ∧ (convert_batch_with_process_timeout s batch (batch_timeout timeout batch_size)
          (.mgmt msg proc)).termination
        = some ⟨true, 5, proc.survivesTerminate⟩ := by
  refine ⟨?_, ?_, ?_, ?_⟩ <;>
    simp [convert_batch_with_process_timeout, handle_batch_failure_spec, terminate_process]

/-- Claim C4, counterexample to the claim as stated: when converter
construction fails for a batch of two papers, the worker does not emit
one Failure per item; it delivers a single batch-level marker dict that
carries no `arxiv_id` at all. -/
theorem C4_counterexample :
    batch_convert_worker
        ⟨false, "converter construction failed", fun _ => true, fun _ => Except.ok "md"⟩
        [⟨"p1", "u1", "l1", "t1"⟩, ⟨"p2", "u2", "l2", "t2"⟩]
      = [WorkerResult.batchError "converter construction failed"]
    ∧ (batch_convert_worker
        ⟨false, "converter construction failed", fun _ => true, fun _ => Except.ok "md"⟩
        [⟨"p1", "u1", "l1", "t1"⟩, ⟨"p2", "u2", "l2", "t2"⟩]).length ≠ 2 := by
  exact ⟨rfl, by decide⟩

/-- Claim C4, amended: when converter construction succeeds, each item of
the batch yields exactly one result — Success with the rendered markdown
on success, Failure with the captured error on a per-item failure — and
one item's failure does not prevent the remaining items from being
processed; but when construction itself fails, the worker emits a single
batch-level error marker, not one Failure per item. -/
theorem C4_worker_amended (env : ConvEnv) (batch : List FetchedPaper) :
    (env.initOk = true
      → batch_convert_worker env batch = batch.map (convert_one env)
        ∧ (batch_convert_worker env batch).length = batch.length
        ∧ sink_ids (batch_convert_worker env batch) = batch.map (·.arxiv_id))
    ∧ (env.initOk = false
      → batch_convert_worker env batch = [WorkerResult.batchError env.initError])
    ∧ (∀ p : FetchedPaper, env.fileExists p.local_path = true
        → ∀ markdown, env.convert p = Except.ok markdown
        → convert_one env p = WorkerResult.success p.arxiv_id markdown)
    ∧ (∀ p : FetchedPaper, env.fileExists p.local_path = true
        → ∀ e, env.convert p = Except.error e
        → convert_one env p = WorkerResult.failure p.arxiv_id e)
    ∧ (∀ p : FetchedPaper, env.fileExists p.local_path = false
        → convert_one env p
            = WorkerResult.failure p.arxiv_id "PDF path missing or invalid.") := by
  refine ⟨fun h => ⟨?_, ?_, ?_⟩, fun h => ?_, ?_, ?_, ?_⟩
  · simp [batch_convert_worker, h, worker_loop_eq_map]
  · simp [batch_convert_worker, h, worker_loop_eq_map]
  · simp [batch_convert_worker, h, worker_loop_eq_map, sink_ids_convert]
  · simp [batch_convert_worker, h]
  · intro p hex markdown hc
    simp [convert_one, hex, hc]
  · intro p hex e hc
    simp [convert_one, hex, hc]
  · intro p hex
    simp [convert_one, hex]

/-- Claim C4, witness: the amended theorem evaluated on a one-item batch
with a succeeding converter. -/
theorem C4_witness :
    batch_convert_worker ⟨true, "", fun _ => true, fun _ => Except.ok "md"⟩
        [⟨"a", "u", "l", "t"⟩]
      = [WorkerResult.success "a" "md"] := by
  have h := (C4_worker_amended ⟨true, "", fun _ => true, fun _ => Except.ok "md"⟩
    [⟨"a", "u", "l", "t"⟩]).1 rfl
  rw [h.1]
  rfl

/-- Claim C5: the result sink appends exactly the Success records to the
output log (in order) and checkpoints exactly the identifiers of the
non-batch-error results, so a Success contributes its record and its
identifier, a Failure contributes its identifier only, and afterwards
every identifier present in the output log is also present in the
checkpoint file (given that this held before). -/
theorem C5_result_sink (s : PState) (results : List WorkerResult)
    (batch : List FetchedPaper)
    (hinv : ∀ r ∈ s.dataset, r.arxiv_id ∈ s.checkpointFile) :
    (process_batch_results s (some results) batch).1.dataset
        = s.dataset ++ success_records results
      ∧ (process_batch_results s (some results) batch).1.checkpointFile
        = s.checkpointFile ++ sink_ids results
      ∧ ∀ r ∈ (process_batch_results s (some results) batch).1.dataset,
          r.arxiv_id ∈ (process_batch_results s (some results) batch).1.checkpointFile := by
  rw [process_batch_results_some]
  refine ⟨rfl, rfl, ?_⟩
  intro r hr
  rcases List.mem_append.mp hr with h1 | h2
  · exact List.mem_append_left _ (hinv r h1)
  · exact List.mem_append_right _ (mem_sink_of_success results r h2)

/-- Claim C5, witness: the sink evaluated on one success, one failure and
one batch-error marker from an empty state. -/
theorem C5_witness :
    (∀ r ∈ (⟨[], [], []⟩ : PState).dataset, r.arxiv_id ∈ ([] : List String))
    ∧ (process_batch_results ⟨[], [], []⟩
        (some [WorkerResult.success "a" "m", WorkerResult.failure "b" "e",
          WorkerResult.batchError "x"]) []).1.dataset
      = [] ++ success_records [WorkerResult.success "a" "m",
          WorkerResult.failure "b" "e", WorkerResult.batchError "x"] :=
  ⟨by simp,
   (C5_result_sink ⟨[], [], []⟩
      [WorkerResult.success "a" "m", WorkerResult.failure "b" "e",
        WorkerResult.batchError "x"] [] (by simp)).1⟩

/-- Claim C7: the download producer checkpoints exactly the identifiers
of the papers whose fetch fails (in input order, immediately, without
enqueuing or retrying them), publishes exactly the successfully fetched
items onto the queue in input order, and after the input is exhausted
publishes exactly one end-of-stream sentinel; a fetch timeout and a fetch
error are both treated as failure by `download_paper`. -/
theorem C7_download_producer (fetch : Paper → FetchOutcome) (papers : List Paper)
    (s : PState) :
    (downloader_thread fetch papers s).2
        = (papers.filterMap (download_paper fetch)).map some ++ [none]
      ∧ (downloader_thread fetch papers s).1
        = { s with checkpointFile := s.checkpointFile
              ++ (papers.filter fun p => (download_paper fetch p).isNone).map
                    (·.arxiv_id) }
      ∧ (downloader_thread fetch papers s).2.count none = 1
      ∧ (∀ paper temp_dir, fetch paper = FetchOutcome.ok temp_dir
          → download_paper fetch paper
            = some ⟨paper.arxiv_id, paper.url,
                temp_dir ++ "/" ++ paper.arxiv_id ++ ".pdf", temp_dir⟩)
      ∧ (∀ paper, fetch paper = FetchOutcome.timedOut
          → download_paper fetch paper = none)
      ∧ (∀ paper e, fetch paper = FetchOutcome.failed e
          → download_paper fetch paper = none) := by
  refine ⟨?_, ?_, ?_, ?_, ?_, ?_⟩
  · rw [downloader_thread_spec]
  · rw [downloader_thread_spec]
  · rw [downloader_thread_spec]
    rw [List.count_append]
    have hz : ((papers.filterMap (download_paper fetch)).map some).count
        (none : Option FetchedPaper) = 0 := by
      rw [List.count_eq_zero]
      intro hmem
      obtain ⟨f, _, hf⟩ := List.mem_map.mp hmem
      cases hf
    rw [hz]
    rfl
  · intro paper temp_dir h
    simp [download_paper, h]
  · intro paper h
    simp [download_paper, h]
  · intro paper e h
    simp [download_paper, h]

/-- Claim C7, witness: the producer evaluated on one fetchable and one
unfetchable paper. -/
theorem C7_witness :
    (downloader_thread
        (fun p => if p.arxiv_id = "f" then FetchOutcome.failed "gsutil failed"
          else FetchOutcome.ok "td")
        [⟨"g", "u"⟩, ⟨"f", "u"⟩] ⟨[], [], []⟩).2
      = [some ⟨"g", "u", "td/g.pdf", "td"⟩, none] := by
  have h := (C7_download_producer
    (fun p => if p.arxiv_id = "f" then FetchOutcome.failed "gsutil failed"
      else FetchOutcome.ok "td")
    [⟨"g", "u"⟩, ⟨"f", "u"⟩] ⟨[], [], []⟩).1
  rw [h]
  decide

/-- Claim C8: the prefetch queue is constructed with capacity
`prefetch_factor * batch_size` and, since a publish on a full queue
blocks instead of growing it, every reachable queue state holds at most
`prefetch-factor × batch-size` items. -/
theorem C8_bounded_queue (batch_size prefetch_factor : Nat)
    (q : List (Option FetchedPaper))
    (hq : QueueReachable (queue_maxsize batch_size prefetch_factor) q) :
    q.length ≤ prefetch_factor * batch_size := by
  have hcap : ∀ (cap : Nat) (l : List (Option FetchedPaper)),
      QueueReachable cap l → l.length ≤ cap := by
    intro cap l h
    induction h with
    | empty => simp
    | put q x hq hlt ih => simp; omega
    | get x q hq ih => simp at ih; omega
  simpa [queue_maxsize] using hcap _ q hq

/-- Claim C8, witness: a queue of capacity 3 × 2 holding one item,
reached by a single publish. -/
theorem C8_witness :
    ([some ⟨"a", "u", "l", "t"⟩] : List (Option FetchedPaper)).length ≤ 3 * 2 :=
  C8_bounded_queue 2 3 _
    (QueueReachable.put [] (some ⟨"a", "u", "l", "t"⟩) QueueReachable.empty (by decide))

/-- Claim C1, counterexample to the claim as stated: one paper is offered
and fetched, but its batch's executor fails during converter
construction; the worker delivers only a batch-level marker, the sink
checkpoints nothing for it, and the run completes with the identifier in
neither the checkpoint file nor the output log — no terminal outcome. -/
theorem C1_counterexample :
    (run 1 300 (fun _ => FetchOutcome.ok "td")
        (fun _ => ExecBehavior.work
          ⟨false, "converter construction failed", fun _ => true, fun _ => Except.ok "md"⟩)
        [⟨"p1", "u1"⟩] ⟨[], [], []⟩).1.checkpointFile = []
    ∧ (run 1 300 (fun _ => FetchOutcome.ok "td")
        (fun _ => ExecBehavior.work
          ⟨false, "converter construction failed", fun _ => true, fun _ => Except.ok "md"⟩)
        [⟨"p1", "u1"⟩] ⟨[], [], []⟩).1.dataset = []
    ∧ ("p1" : String) ∉ (run 1 300 (fun _ => FetchOutcome.ok "td")
        (fun _ => ExecBehavior.work
          ⟨false, "converter construction failed", fun _ => true, fun _ => Except.ok "md"⟩)
        [⟨"p1", "u1"⟩] ⟨[], [], []⟩).1.checkpointFile := by
  refine ⟨by decide, by decide, by decide⟩

/-- Claim C1, amended: provided the batch size is positive and no batch's
executor fails during converter construction (it may run its items, hang
until the batch timeout, raise a process-management error, or deliver a
non-list), every identifier offered to the run ends up in the checkpoint
file by the time the run completes; items of a batch whose converter
construction fails receive no checkpoint entry and are left to a future
run. -/
theorem C1_terminal_amended (batch_size timeout : Nat) (fetch : Paper → FetchOutcome)
    (behaviors : Nat → ExecBehavior) (papers : List Paper) (s0 : PState)
    (hbs : 0 < batch_size) (hbeh : ∀ k, Covering (behaviors k)) :
    ∀ p ∈ papers,
      p.arxiv_id ∈ (run batch_size timeout fetch behaviors papers s0).1.checkpointFile := by
  intro p hp
  simp only [run, downloader_thread_spec, queue_events_spec]
  cases hd : download_paper fetch p with
  | none =>
      apply run_loop_file_mono
      show p.arxiv_id ∈ s0.checkpointFile
        ++ (papers.filter fun q => (download_paper fetch q).isNone).map (·.arxiv_id)
      refine List.mem_append_right _ ?_
      refine List.mem_map.mpr ⟨p, ?_, rfl⟩
      exact List.mem_filter.mpr ⟨hp, by simp [hd]⟩
  | some f =>
      have hmem : f ∈ papers.filterMap (download_paper fetch) :=
        List.mem_filterMap.mpr ⟨p, hp, hd⟩
      have hid := download_paper_id fetch p f hd
      rw [← hid]
      apply run_loop_covers batch_size (batch_timeout timeout batch_size) behaviors hbs hbeh
        _ _ _ _ _ f hmem
      simp only [List.length_append, List.length_map, List.length_singleton]
      omega

/-- Claim C1, witness: a one-paper run whose only batch times out; the
identifier is checkpointed. -/
theorem C1_witness :
    0 < 1
    ∧ ("w1" : String) ∈ (run 1 7 (fun _ => FetchOutcome.ok "td")
        (fun _ => ExecBehavior.hang ⟨false⟩) [⟨"w1", "u"⟩] ⟨[], [], []⟩).1.checkpointFile :=
  ⟨by decide,
   C1_terminal_amended 1 7 (fun _ => FetchOutcome.ok "td")
     (fun _ => ExecBehavior.hang ⟨false⟩) [⟨"w1", "u"⟩] ⟨[], [], []⟩
     (by decide) (fun _ => (by decide : Covering (ExecBehavior.hang ⟨false⟩)))
     ⟨"w1", "u"⟩ (by simp)⟩

/-- Claim C2, counterexample to the claim as stated: a run whose only
batch times out appends the identifier to the durable checkpoint file
twice — once in the failure handler and once again when the synthesized
results are processed — although it was not present before. -/
theorem C2_counterexample :
    (run 1 300 (fun _ => FetchOutcome.ok "td") (fun _ => ExecBehavior.hang ⟨true⟩)
        [⟨"p1", "u1"⟩] ⟨[], [], []⟩).1.checkpointFile = ["p1", "p1"]
    ∧ ((run 1 300 (fun _ => FetchOutcome.ok "td") (fun _ => ExecBehavior.hang ⟨true⟩)
        [⟨"p1", "u1"⟩] ⟨[], [], []⟩).1.checkpointFile).count "p1" = 2 := by
  refine ⟨by decide, by decide⟩

/-- Claim C2, amended: processing a batch through a completed worker (or
a worker that delivered a non-list) appends each of its items to the
checkpoint file exactly once, but a timed-out or management-error batch
appends each of its items exactly twice, once in `_handle_batch_failure`
and once in `_process_batch_results`; at-most-once durable appending
therefore holds only for runs without batch timeouts or management
errors, and deduplication happens when the file is read back into the
in-memory set at startup. -/
theorem C2_checkpoint_growth (s : PState) (batch : List FetchedPaper) (T : Nat)
    (env : ConvEnv) (proc : WorkerProc) (msg : String) (hinit : env.initOk = true) :
    (process_batch s batch T (.work env)).1.checkpointFile
        = s.checkpointFile ++ batch.map (·.arxiv_id)
      ∧ (process_batch s batch T .garbled).1.checkpointFile
        = s.checkpointFile ++ batch.map (·.arxiv_id)
      ∧ (process_batch s batch T (.hang proc)).1.checkpointFile
        = s.checkpointFile ++ batch.map (·.arxiv_id) ++ batch.map (·.arxiv_id)
      ∧ (process_batch s batch T (.mgmt msg proc)).1.checkpointFile
        = s.checkpointFile ++ batch.map (·.arxiv_id) ++ batch.map (·.arxiv_id)
      ∧ (load_checkpoint s).processed_ids = s.checkpointFile.map py_strip := by
  refine ⟨?_, ?_, ?_, ?_, rfl⟩
  · rw [process_batch_work s batch T env hinit]
  · rw [process_batch_garbled]
  · rw [process_batch_hang]
  · rw [process_batch_mgmt]

/-- Claim C2, witness: the amended growth equations evaluated on a
singleton batch: one append on the worker path, two on the timeout
path. -/
theorem C2_witness :
    (process_batch ⟨[], [], []⟩ [⟨"a", "u", "l", "t"⟩] 9
        (.work ⟨true, "", fun _ => true, fun _ => Except.ok "md"⟩)).1.checkpointFile
      = [] ++ [⟨"a", "u", "l", "t"⟩].map (FetchedPaper.arxiv_id)
    ∧ (process_batch ⟨[], [], []⟩ [⟨"a", "u", "l", "t"⟩] 9
        (.hang ⟨true⟩)).1.checkpointFile
      = [] ++ [⟨"a", "u", "l", "t"⟩].map (FetchedPaper.arxiv_id)
          ++ [⟨"a", "u", "l", "t"⟩].map (FetchedPaper.arxiv_id) :=
  ⟨(C2_checkpoint_growth ⟨[], [], []⟩ [⟨"a", "u", "l", "t"⟩] 9
      ⟨true, "", fun _ => true, fun _ => Except.ok "md"⟩ ⟨true⟩ "m" rfl).1,
   (C2_checkpoint_growth ⟨[], [], []⟩ [⟨"a", "u", "l", "t"⟩] 9
      ⟨true, "", fun _ => true, fun _ => Except.ok "md"⟩ ⟨true⟩ "m" rfl).2.2.1⟩

/-- Claim C6, counterexample to the claim as stated: when the 600 second
idle timeout of the queue consumer fires while the downloader is still
alive, the partial batch gathered so far is submitted and the loop
continues, so a non-final batch can be strictly smaller than the batch
size (here a run with batch size 2 submits batches of sizes 1 and 2). -/
theorem C6_counterexample :
    ((run_loop 2 600 (fun _ => ExecBehavior.garbled) 6 ⟨[], [], []⟩
        [QEvent.item ⟨"a", "u", "l", "t"⟩, QEvent.idleTimeout true false,
         QEvent.item ⟨"b", "u", "l", "t"⟩, QEvent.item ⟨"c", "u", "l", "t"⟩,
         QEvent.sentinelTok] 0).2).map List.length = [1, 2]
    ∧ 0 + 1 < ((run_loop 2 600 (fun _ => ExecBehavior.garbled) 6 ⟨[], [], []⟩
        [QEvent.item ⟨"a", "u", "l", "t"⟩, QEvent.idleTimeout true false,
         QEvent.item ⟨"b", "u", "l", "t"⟩, QEvent.item ⟨"c", "u", "l", "t"⟩,
         QEvent.sentinelTok] 0).2).length
    ∧ (((run_loop 2 600 (fun _ => ExecBehavior.garbled) 6 ⟨[], [], []⟩
        [QEvent.item ⟨"a", "u", "l", "t"⟩, QEvent.idleTimeout true false,
         QEvent.item ⟨"b", "u", "l", "t"⟩, QEvent.item ⟨"c", "u", "l", "t"⟩,
         QEvent.sentinelTok] 0).2).getD 0 []).length = 1 := by
  refine ⟨by decide, by decide, by decide⟩

/-- Claim C6, amended: every batch submitted by the main loop has size at
most the batch size, and in any run whose queue observations contain no
idle-timeout event every non-final batch is exactly full — only the
final batch may be smaller.  An idle timeout with a live producer is the
one way a smaller non-final batch arises. -/
theorem C6_batch_sizing_amended (batch_size T : Nat) (behaviors : Nat → ExecBehavior)
    (fuel : Nat) (s : PState) (events : List QEvent) (k : Nat) :
    (∀ b ∈ (run_loop batch_size T behaviors fuel s events k).2, b.length ≤ batch_size)
    ∧ ((∀ a q, QEvent.idleTimeout a q ∉ events)
        → ∀ i, i + 1 < (run_loop batch_size T behaviors fuel s events k).2.length
        → ((run_loop batch_size T behaviors fuel s events k).2.getD i []).length
            = batch_size) := by
  refine ⟨?_, ?_⟩
  · exact fun b hb => run_loop_batch_le batch_size T behaviors fuel s events k b hb
  · exact fun hnt i hi =>
      run_loop_nonfinal_full batch_size T behaviors fuel s events k hnt i hi

/-- Claim C6, witness: a timeout-free run with batch size 1 submits two
batches and the non-final one is exactly full. -/
theorem C6_witness :
    ((run_loop 1 9 (fun _ => ExecBehavior.garbled) 4 ⟨[], [], []⟩
        [QEvent.item ⟨"a", "u", "l", "t"⟩, QEvent.item ⟨"b", "u", "l", "t"⟩,
         QEvent.sentinelTok] 0).2.getD 0 []).length = 1 :=
  (C6_batch_sizing_amended 1 9 (fun _ => ExecBehavior.garbled) 4 ⟨[], [], []⟩
      [QEvent.item ⟨"a", "u", "l", "t"⟩, QEvent.item ⟨"b", "u", "l", "t"⟩,
       QEvent.sentinelTok] 0).2
    (fun a q => by simp) 0 (by decide)

/-- Claim C9: every entry of the `paper_versions` dict built by
`list_papers` originates in one of the listed urls and carries the
maximal version among the urls sharing its base id (a missing or
unparseable version suffix parsing as version 1), and the output is
exactly the dict entries whose full versioned id is absent from the
processed set — so a new version of a paper whose earlier version was
checkpointed is offered again. -/
theorem C9_lister (out : String) (processed_ids : List String) :
    (∀ e ∈ ((py_split '\n' (py_strip out)).filter fun u => py_strip u ≠ "").foldl
          update_versions [],
        entry_from ((py_split '\n' (py_strip out)).filter fun u => py_strip u ≠ "") e
          ∧ entry_dom ((py_split '\n' (py_strip out)).filter fun u => py_strip u ≠ "") e)
    ∧ (list_papers (some out) processed_ids
        = ((((py_split '\n' (py_strip out)).filter fun u => py_strip u ≠ "").foldl
              update_versions []).filter fun e => e.2.full_id ∉ processed_ids).map
            fun e => (⟨e.2.full_id, e.2.url⟩ : Paper))
    ∧ list_papers (some "gs://ar/2101.0001v2.pdf") ["2101.0001v1"]
        = [⟨"2101.0001v2", "gs://ar/2101.0001v2.pdf"⟩]
    ∧ parse_version "2101.0001" = ("2101.0001", 1)
    ∧ parse_version "2101.0001vx" = ("2101.0001", 1)
    ∧ parse_version "2101.0001v3" = ("2101.0001", 3) := by
  refine ⟨?_, rfl, by decide, by decide, by decide, by decide⟩
  have h := update_versions_fold
    ((py_split '\n' (py_strip out)).filter fun u => py_strip u ≠ "") [] []
    ⟨fun e he => absurd he (List.not_mem_nil e),
     fun u hu => absurd hu (List.not_mem_nil u), List.nodup_nil⟩
  have h1 := h.1
  simpa using h1

/-- Claim C9, witness: on a listing with two versions of the same paper,
the kept entry dominates the superseded url. -/
theorem C9_witness :
    (parse_version (extract_paper_id "gs://a/xv1.pdf")).2 ≤ (2 : Int) :=
  ((C9_lister "gs://a/xv1.pdf\ngs://a/xv2.pdf" []).1
      ("x", ⟨2, "xv2", "gs://a/xv2.pdf"⟩) (by decide))
    |>.2 "gs://a/xv1.pdf" (by decide) (by decide)

/-- Claim C10: `update_checkpoint` appends exactly one line to the
durable checkpoint file and touches neither the in-memory processed set
nor the output log; consequently any sequence of checkpoint updates, and
indeed a whole run, leaves `processed_ids` at its startup snapshot, so
every in-run filtering decision of `list_papers` sees the startup
snapshot. -/
theorem C10_frame (s : PState) (paper_id : String) (ids : List String)
    (batch_size timeout : Nat) (fetch : Paper → FetchOutcome)
    (behaviors : Nat → ExecBehavior) (papers : List Paper)
    (gsutil_stdout : Option String) :
    update_checkpoint s paper_id
        = { s with checkpointFile := s.checkpointFile ++ [paper_id] }
      ∧ (update_checkpoint s paper_id).processed_ids = s.processed_ids
      ∧ (update_checkpoint s paper_id).dataset = s.dataset
      ∧ (ids.foldl update_checkpoint s).processed_ids = s.processed_ids
      ∧ (ids.foldl update_checkpoint s).checkpointFile = s.checkpointFile ++ ids
      ∧ (run batch_size timeout fetch behaviors papers s).1.processed_ids
          = s.processed_ids
      ∧ list_papers gsutil_stdout
          (run batch_size timeout fetch behaviors papers s).1.processed_ids
        = list_papers gsutil_stdout s.processed_ids := by
  have hfold : ∀ (l : List String) (t : PState),
      l.foldl update_checkpoint t
        = { t with checkpointFile := t.checkpointFile ++ l } := by
    intro l
    induction l with
    | nil => intro t; simp
    | cons i rest ih =>
        intro t
        rw [List.foldl_cons, ih]
        simp [update_checkpoint, List.append_assoc]
  have hrun : (run batch_size timeout fetch behaviors papers s).1.processed_ids
      = s.processed_ids := by
    simp only [run, downloader_thread_spec, queue_events_spec]
    rw [run_loop_pids]
  refine ⟨rfl, rfl, rfl, ?_, ?_, hrun, ?_⟩
  · rw [hfold]
  · rw [hfold]
  · rw [hrun]

end ArxivMD
